import Mathlib

/-!
Shallow embedding of the go-sitemap-parser repository (package `sitemap`).

The embedding mirrors the source file structure: the `S` state record, the
configuration record, the classification step `S.parse`, the two traversal
drivers (`parseAndFetchUrlsSequential`, `parseAndFetchUrlsMultiThread`), the
top-level `Parse`, the configuration setters and the read accessors.

External collaborators (the HTTP transport, the gzip codec, the XML decoder
and the regexp engine) are out of scope for the repository itself; they are
modelled as oracles (`Env`, `XmlDecoder`, compiled matcher functions) whose
results the embedded code consumes exactly as the Go code consumes the
library results.  Go slices are lists; Go `nil` versus non-nil slices are
`Option` where the distinction is observable.  Nondeterminism (goroutine
interleaving, `rand.Intn`) is made explicit through schedule and random
oracles; where the source appends to shared slices with no lock, the data
race is modelled at the granularity of the individual reads and writes of
the slice header (`racyAppendStep`).
-/

namespace GoSitemap

/-- Enumeration of `urlChangeFreq` constant values (source lines 84-110). -/
inductive ChangeFreq
  | always
  | hourly
  | daily
  | weekly
  | monthly
  | yearly
  | never
deriving DecidableEq, Repr

/-- Record of `<url>` in `<urlset>` (source struct `URL`, lines 72-78).
`lastMod` and `priority` are kept as their serialized token since no
embedded computation inspects them (time parsing and float decoding are
external collaborators). -/
structure URL where
  loc : String
  lastMod : Option String := none
  changeFreq : Option ChangeFreq := none
  priority : Option String := none
deriving DecidableEq, Repr, Inhabited

/-- Record of one `<sitemap>` entry of `<sitemapindex>` (source lines 60-63). -/
structure IndexEntry where
  loc : String
  lastMod : Option String := none
deriving DecidableEq, Repr, Inhabited

/-- Error values produced by the embedded code paths.  External library
errors (network, decode, codec, regexp compilation) carry their message. -/
inductive Err
  | fetch (msg : String)
  | sitemapIndexEmpty
  | sitemapEmpty
  | decode (msg : String)
  | gzip (msg : String)
  | regexCompile (msg : String)
  | errorsBeforeParsing
deriving DecidableEq, Repr, Inhabited

/-- A compiled regular expression, abstracted to its `MatchString` behaviour
(`regexp.Regexp` is an external collaborator). -/
def Matcher : Type := String → Bool

/-- The `config` struct (source lines 47-55). -/
structure Config where
  userAgent : String := ""
  fetchTimeout : Nat := 3
  multiThread : Bool := true
  follow : List String := []
  followRegexes : List Matcher := []
  rules : List String := []
  rulesRegexes : List Matcher := []

/-- The `S` struct (source lines 29-37). -/
structure S where
  cfg : Config := {}
  mainURL : String := ""
  mainURLContent : String := ""
  robotsTxtSitemapURLs : List String := []
  sitemapLocations : List String := []
  urls : List URL := []
  errs : List Err := []

/-- Oracle for the external XML decoder (`encoding/xml`), as consumed by
`parseSitemapIndex` and `parseURLSet`: decoding a `sitemapindex` yields the
`Sitemap` slice (`none` models a nil slice) and an optional error; decoding
a `urlset` yields the `URL` slice and an optional error. -/
structure XmlDecoder where
  decodeIndex : String → Option (List IndexEntry) × Option Err
  decodeURLSet : String → List URL × Option Err

/-- The `encoding/xml` decoder only ever materialises the `Sitemap` slice
when at least one `<sitemap>` element was decoded into it: a decoded non-nil
slice is non-empty. -/
def XmlDecoder.WellFormed (d : XmlDecoder) : Prop :=
  ∀ content l e, d.decodeIndex content = (some l, e) → l ≠ []

/-- Oracles for the remaining external collaborators: `fetch` stands for the
HTTP GET (source lines 366-397, returning the body or the network/status
error), `gunzip` for the `unzip` gzip codec result (source lines 579-595). -/
structure Env where
  dec : XmlDecoder
  fetch : String → Except Err String
  gunzip : String → Except Err String

/-- Translation of `parseSitemapIndex` (source lines 543-556): empty data is
the distinguished "sitemapindex is empty" error with the zero-value struct
(nil `Sitemap` slice); otherwise the external decode runs. -/
def parseSitemapIndex (d : XmlDecoder) (data : String) :
    Option (List IndexEntry) × Option Err :=
  if data.length = 0 then (none, some Err.sitemapIndexEmpty)
  else d.decodeIndex data

/-- Translation of `parseURLSet` (source lines 563-574): empty data is the
distinguished "sitemap is empty" error with the zero-value struct. -/
def parseURLSet (d : XmlDecoder) (data : String) : List URL × Option Err :=
  if data.length = 0 then ([], some Err.sitemapEmpty)
  else d.decodeURLSet data

/-- The follow/rules matching loop shared by both branches of `parse`
(source lines 488-498 and 509-519): with a non-empty compiled set the first
matching pattern admits, an empty compiled set admits everything. -/
def matchesAny (regexes : List Matcher) (loc : String) : Bool :=
  if regexes.length > 0 then regexes.any fun re => re loc else true

/-- Translation of `parse` (source lines 477-535).  The per-item loops that
skip non-matching entries and append the rest are rendered as
filter-then-append, preserving order.  Returns the updated state and
`sitemapLocationsAdded`. -/
def S.parse (d : XmlDecoder) (s : S) (url : String) (content : String) :
    S × List String :=
  let smIndexRes := parseSitemapIndex d content
  let urlSetRes := parseURLSet d content
  let smIndexSitemap := smIndexRes.1
  let errSitemapIndex := smIndexRes.2
  let urlSetURL := urlSetRes.1
  let errURLSet := urlSetRes.2
  let branch : S × List String :=
    match smIndexSitemap with
    | some sitemaps =>
        let s1 : S := { s with sitemapLocations := s.sitemapLocations ++ [url] }
        let admitted :=
          sitemaps.filter fun sm => matchesAny s.cfg.followRegexes sm.loc
        ({ s1 with
            sitemapLocations := s1.sitemapLocations ++ admitted.map IndexEntry.loc },
          admitted.map IndexEntry.loc)
    | none =>
        if urlSetURL.length > 0 then
          let admittedURLs :=
            urlSetURL.filter fun u => matchesAny s.cfg.rulesRegexes u.loc
          ({ s with urls := s.urls ++ admittedURLs }, [])
        else (s, [])
  let s2 := branch.1
  let s3 :=
    if errSitemapIndex.isSome && urlSetURL.length == 0 then
      { s2 with errs := s2.errs ++ errSitemapIndex.toList }
    else s2
  let s4 :=
    if errURLSet.isSome && smIndexSitemap.isNone then
      { s3 with errs := s3.errs ++ errURLSet.toList }
    else s3
  (s4, branch.2)

/-- The gzip magic marker tested by `checkAndUnzipContent` (source line 407). -/
def gzipMagic : String := "\x1f\x8b\x08"

/-- Translation of `checkAndUnzipContent` (source lines 406-418): content
with the gzip marker is fed to the codec; a codec failure is recorded in the
error list and the original content is kept. -/
def checkAndUnzipContent (env : Env) (s : S) (content : String) : S × String :=
  if content.startsWith gzipMagic then
    match env.gunzip content with
    | .error e => ({ s with errs := s.errs ++ [e] }, content)
    | .ok uncompressed => (s, uncompressed)
  else (s, content)

/-- Translation of `parseAndFetchUrlsSequential` (source lines 456-469):
depth-first recursion, fetch failure records the error and continues with
the next location.  The Go function has no termination measure; the
embedding spends one unit of `fuel` per processed list node, `none` marks
fuel exhaustion (a run the Go code would still be executing). -/
def parseAndFetchUrlsSequential (env : Env) : Nat → S → List String → Option S
  | 0, _, _ => none
  | Nat.succ fuel, s, locations =>
    match locations with
    | [] => some s
    | location :: rest =>
      match env.fetch location with
      | .error e =>
          parseAndFetchUrlsSequential env fuel { s with errs := s.errs ++ [e] } rest
      | .ok raw =>
          let cu := checkAndUnzipContent env s raw
          let pr := S.parse env.dec cu.1 location cu.2
          if pr.2.length > 0 then
            match parseAndFetchUrlsSequential env fuel pr.1 pr.2 with
            | none => none
            | some s2 => parseAndFetchUrlsSequential env fuel s2 rest
          else parseAndFetchUrlsSequential env fuel pr.1 rest

/-- The body of one goroutine of `parseAndFetchUrlsMultiThread` (source
lines 433-445) for one location — fetch, record a fetch error, or
decompress, parse, and hand the admitted children to the pool — rendered as
one step whose shared appends execute without interference.  This is the
serialised idealisation: the Go source takes no lock around these appends,
so in the program they race; the race itself is modelled by
`racyAppendStep` below (claim C2). -/
def mtStep (env : Env) (s : S) (pending : List String) (i : Nat) :
    S × List String :=
  let location := pending.getD i ""
  let rest := pending.eraseIdx i
  match env.fetch location with
  | .error e => ({ s with errs := s.errs ++ [e] }, rest)
  | .ok raw =>
      let cu := checkAndUnzipContent env s raw
      let pr := S.parse env.dec cu.1 location cu.2
      (pr.1, rest ++ pr.2)

/-- The concurrent traversal `parseAndFetchUrlsMultiThread` (source lines
427-448) under an explicit interleaving of whole units: `pending` is the
pool of dispatched units, the schedule picks which unit completes next, the
admitted children join the pool (the goroutine recursion), and the run is
complete when the pool drains — the nested `WaitGroup` waits.  Because the
source performs its shared-slice appends with no lock, this unit-atomic
rendering is the serialised idealisation of the function (the semantics
spec section 5 prescribes), not the racy behaviour the code actually has —
see `racyAppendRun` and claim C2.  It serves to give the dispatch inside
`Parse` a definition; the claims proved about `Parse` concern only its
early-return paths, which never reach it.  `none` marks an invalid schedule
or one too short to drain the pool. -/
def parseAndFetchUrlsMultiThread (env : Env) :
    List Nat → S → List String → Option S
  | [], s, pending => if pending.isEmpty then some s else none
  | i :: sched, s, pending =>
      if i < pending.length then
        let st := mtStep env s pending i
        parseAndFetchUrlsMultiThread env sched st.1 st.2
      else none

/-- One goroutine of the concurrent traversal processing a leaf document
interacts with the shared aggregate through the assignment
`s.urls = append(s.urls, urlSetURL)` (source line 523), executed with no
lock (`parseAndFetchUrlsMultiThread` declares none, and the mutex in `Parse`
is local to its robots goroutines).  Without mutual exclusion that
assignment is two separate shared-memory accesses: a read of the slice
header into the goroutine, and a write of the locally extended slice back.
A task is the URL a goroutine is about to append, together with its local
snapshot (`none` until its read has executed); the scheduled task performs
its next access. -/
def racyAppendStep (shared : List URL)
    (tasks : List (URL × Option (List URL))) (i : Nat) :
    List URL × List (URL × Option (List URL)) :=
  match (tasks.getD i (default, none)).2 with
  | none =>
      (shared, tasks.set i ((tasks.getD i (default, none)).1, some shared))
  | some snapshot =>
      (snapshot ++ [(tasks.getD i (default, none)).1], tasks.eraseIdx i)

/-- The unsynchronised concurrent appends of sibling goroutines under an
explicit interleaving of their shared-memory accesses; returns the final
shared `urls` slice, `none` marking an invalid or incomplete schedule. -/
def racyAppendRun :
    List Nat → List URL → List (URL × Option (List URL)) → Option (List URL)
  | [], shared, tasks => if tasks.isEmpty then some shared else none
  | i :: sched, shared, tasks =>
      if i < tasks.length then
        let st := racyAppendStep shared tasks i
        racyAppendRun sched st.1 st.2
      else none

/-- Translation of `setContent` (source lines 335-345): pre-supplied content
wins, otherwise the entry URL is fetched. -/
def setContent (env : Env) (s : S) (urlContent : Option String) :
    Except Err String :=
  match urlContent with
  | some c => Except.ok c
  | none => env.fetch s.mainURL

/-- Translation of `parseRobotsTXT` (source lines 351-360): lines starting
with the fixed prefix contribute the text after the first occurrence of the
delimiter. -/
def parseRobotsTXT (s : S) (robotsTXTContent : String) : S :=
  let lines := robotsTXTContent.splitOn "\n"
  let found :=
    (lines.filter fun line => line.startsWith "Sitemap: ").map
      fun line => (line.splitOn "Sitemap: ").getD 1 ""
  { s with robotsTxtSitemapURLs := s.robotsTxtSitemapURLs ++ found }

/-- Translation of `Parse` (source lines 214-269).  A prior error blocks the
run with the guard error; a failed content resolution aborts with that
error.  The robots branch is serialised by the mutex held for each
whole body of each goroutine, modelled in spawn order; `scheds` supplies one
interleaving per dispatched traversal, `fuel` bounds the sequential
recursion.  `none` models a run the Go code has not finished. -/
def S.Parse (env : Env) (scheds : Nat → List Nat) (fuel : Nat) (s : S)
    (url : String) (urlContent : Option String) : Option (S × Option Err) :=
  if 0 < s.errs.length then some (s, some Err.errorsBeforeParsing)
  else
    let s0 : S := { s with mainURL := url }
    match setContent env s0 urlContent with
    | .error e => some ({ s0 with errs := s0.errs ++ [e] }, some e)
    | .ok content =>
      let s1 : S := { s0 with mainURLContent := content }
      if s1.mainURL.endsWith "/robots.txt" then
        let s2 := parseRobotsTXT s1 s1.mainURLContent
        let final := s2.robotsTxtSitemapURLs.enum.foldl
          (fun acc idxURL =>
            match acc with
            | none => none
            | some st =>
              match env.fetch idxURL.2 with
              | .error e => some { st with errs := st.errs ++ [e] }
              | .ok raw =>
                let cu := checkAndUnzipContent env st raw
                let pr := S.parse env.dec cu.1 idxURL.2 cu.2
                if st.cfg.multiThread then
                  parseAndFetchUrlsMultiThread env (scheds idxURL.1) pr.1 pr.2
                else
                  parseAndFetchUrlsSequential env fuel pr.1 pr.2)
          (some s2)
        final.map fun st => (st, none)
      else
        let cu := checkAndUnzipContent env s1 s1.mainURLContent
        let s2 : S := { cu.1 with mainURLContent := cu.2 }
        let pr := S.parse env.dec s2 s2.mainURL s2.mainURLContent
        let final :=
          if s2.cfg.multiThread then
            parseAndFetchUrlsMultiThread env (scheds 0) pr.1 pr.2
          else
            parseAndFetchUrlsSequential env fuel pr.1 pr.2
        final.map fun st => (st, none)

/-- Translation of `SetFollow` (source lines 171-183): the pattern list is
stored, each pattern is compiled by the external regexp engine (`compile`
oracle); failures are appended to the error list, successes to the compiled
set. -/
def SetFollow (compile : String → Except Err Matcher) (s : S)
    (regexes : List String) : S :=
  let s0 : S := { s with cfg := { s.cfg with follow := regexes } }
  regexes.foldl
    (fun st followPattern =>
      match compile followPattern with
      | .error e => { st with errs := st.errs ++ [e] }
      | .ok re =>
          { st with
            cfg := { st.cfg with followRegexes := st.cfg.followRegexes ++ [re] } })
    s0

/-- Translation of `SetRules` (source lines 188-199), same shape as
`SetFollow` for the rules set. -/
def SetRules (compile : String → Except Err Matcher) (s : S)
    (regexes : List String) : S :=
  let s0 : S := { s with cfg := { s.cfg with rules := regexes } }
  regexes.foldl
    (fun st rulePattern =>
      match compile rulePattern with
      | .error e => { st with errs := st.errs ++ [e] }
      | .ok re =>
          { st with
            cfg := { st.cfg with rulesRegexes := st.cfg.rulesRegexes ++ [re] } })
    s0

/-- Translation of `GetErrorsCount` (source lines 271-276); a nil receiver
(`none`) yields 0. -/
def GetErrorsCount : Option S → Int
  | none => 0
  | some s => (s.errs.length : Int)

/-- Translation of `GetErrors` (source lines 278-283); a nil receiver yields
the nil slice (`none`). -/
def GetErrors : Option S → Option (List Err)
  | none => none
  | some s => some s.errs

/-- Translation of `GetURLCount` (source lines 294-302); a nil receiver
yields 0. -/
def GetURLCount : Option S → Int
  | none => 0
  | some s => if s.urls.length ≤ 0 then 0 else (s.urls.length : Int)

/-- Translation of the loop body of `GetRandomURLs` (source lines 317-328),
made explicit about the Go slice semantics: `originalURLs := s.urls` copies
only the slice header, so `backing` is the shared backing array of the
stored `s.urls`, `curLen` the current length of the shrinking working view.
`rand i` stands for the `rand.Intn` draw of iteration `i` (reduced modulo
the current length, as `rand.Intn(n)` ranges over `[0, n)`).  Returns the
selected sample and the backing array after the loop. -/
def getRandomURLsLoop (rand : Nat → Nat) :
    Nat → Nat → List URL → Nat → List URL → List URL × List URL
  | _, 0, backing, _, randURLs => (randURLs, backing)
  | i, Nat.succ remaining, backing, curLen, randURLs =>
    if curLen = 0 then (randURLs, backing)
    else
      let index := rand i % curLen
      let chosen := backing.getD index default
      let backing2 := backing.set index (backing.getD (curLen - 1) default)
      getRandomURLsLoop rand (i + 1) remaining backing2 (curLen - 1)
        (randURLs ++ [chosen])

/-- Translation of `GetRandomURLs` (source lines 308-331); a nil receiver
yields the empty slice.  Returns the sampled slice. -/
def GetRandomURLs (rand : Nat → Nat) (s : Option S) (n : Nat) : List URL :=
  match s with
  | none => []
  | some st => (getRandomURLsLoop rand 0 n st.urls st.urls.length []).1

/-- The stored `s.urls` slice as observable after `GetRandomURLs` returns:
the backing array left behind by the loop, at the unchanged stored length
(source line 313 aliases, lines 326-327 write through the alias). -/
def urlsAfterGetRandomURLs (rand : Nat → Nat) (st : S) (n : Nat) : List URL :=
  (getRandomURLsLoop rand 0 n st.urls st.urls.length []).2

/-- The branch condition of `parse` line 483 (`smIndex.Sitemap != nil`):
content is handled as a sitemap index. -/
def classifiesAsIndex (d : XmlDecoder) (content : String) : Bool :=
  (parseSitemapIndex d content).1.isSome

/-- The branch condition of `parse` line 505 (`else if len(urlSet.URL) > 0`):
content is handled as a URL set. -/
def classifiesAsURLSet (d : XmlDecoder) (content : String) : Bool :=
  (parseSitemapIndex d content).1.isNone && !(parseURLSet d content).1.isEmpty

/-! Effect decomposition: every write path of one `parse` step only appends
to the three Result Aggregate collections, so the contribution of each node
is a pure function of the configuration and the oracles.  These lemmas back
the per-branch growth and error-recording theorems. -/

/-- One contribution to the Result Aggregate: appended sitemap locations,
admitted URLs, recorded errors. -/
structure Eff where
  locs : List String := []
  urls : List URL := []
  errs : List Err := []

/-- Empty contribution. -/
def Eff.nil : Eff := ⟨[], [], []⟩

/-- Sequencing of two contributions. -/
def Eff.append (a b : Eff) : Eff :=
  ⟨a.locs ++ b.locs, a.urls ++ b.urls, a.errs ++ b.errs⟩

/-- Apply a contribution to the aggregate state by appending. -/
def applyEff (s : S) (e : Eff) : S :=
  { s with
    sitemapLocations := s.sitemapLocations ++ e.locs
    urls := s.urls ++ e.urls
    errs := s.errs ++ e.errs }

theorem applyEff_append (s : S) (a b : Eff) :
    applyEff (applyEff s a) b = applyEff s (a.append b) := by
  simp [applyEff, Eff.append, List.append_assoc]

/-- The contribution of one `parse` call as a pure function of the
configuration (same case structure as `S.parse`). -/
def parseEff (d : XmlDecoder) (cfg : Config) (url : String)
    (content : String) : Eff × List String :=
  let smIndexRes := parseSitemapIndex d content
  let urlSetRes := parseURLSet d content
  let smIndexSitemap := smIndexRes.1
  let errSitemapIndex := smIndexRes.2
  let urlSetURL := urlSetRes.1
  let errURLSet := urlSetRes.2
  let branch : Eff × List String :=
    match smIndexSitemap with
    | some sitemaps =>
        let admitted :=
          (sitemaps.filter fun sm => matchesAny cfg.followRegexes sm.loc).map
            IndexEntry.loc
        (⟨url :: admitted, [], []⟩, admitted)
    | none =>
        if urlSetURL.length > 0 then
          (⟨[], urlSetURL.filter fun u => matchesAny cfg.rulesRegexes u.loc, []⟩, [])
        else (Eff.nil, [])
  let e2 :=
    if errSitemapIndex.isSome && urlSetURL.length == 0 then
      { branch.1 with errs := branch.1.errs ++ errSitemapIndex.toList }
    else branch.1
  let e3 :=
    if errURLSet.isSome && smIndexSitemap.isNone then
      { e2 with errs := e2.errs ++ errURLSet.toList }
    else e2
  (e3, branch.2)

theorem parse_eq_applyEff (d : XmlDecoder) (s : S) (url content : String) :
    S.parse d s url content =
      (applyEff s (parseEff d s.cfg url content).1,
        (parseEff d s.cfg url content).2) := by
  simp only [S.parse, parseEff]
  cases hsi : (parseSitemapIndex d content).1 with
  | none =>
      simp only [hsi]
      split_ifs <;>
        simp_all [applyEff, Eff.nil, List.append_assoc]
  | some sitemaps =>
      simp only [hsi]
      split_ifs <;>
        simp_all [applyEff, Eff.nil, List.append_assoc]

/-- The error/content outcome of `checkAndUnzipContent` as a pure function
of the oracle. -/
def checkAndUnzipEff (env : Env) (content : String) : List Err × String :=
  if content.startsWith gzipMagic then
    match env.gunzip content with
    | .error e => ([e], content)
    | .ok uncompressed => ([], uncompressed)
  else ([], content)

theorem checkAndUnzip_eq_applyEff (env : Env) (s : S) (content : String) :
    checkAndUnzipContent env s content =
      (applyEff s ⟨[], [], (checkAndUnzipEff env content).1⟩,
        (checkAndUnzipEff env content).2) := by
  simp only [checkAndUnzipContent, checkAndUnzipEff]
  split_ifs with h
  · cases env.gunzip content <;> simp [applyEff]
  · simp [applyEff]

/-- The contribution and admitted children of one traversal unit for one
location: fetch, decompress, classify. -/
def nodeEff (env : Env) (cfg : Config) (location : String) :
    Eff × List String :=
  match env.fetch location with
  | .error e => (⟨[], [], [e]⟩, [])
  | .ok raw =>
      let gz := checkAndUnzipEff env raw
      let pr := parseEff env.dec cfg location gz.2
      (⟨pr.1.locs, pr.1.urls, gz.1 ++ pr.1.errs⟩, pr.2)

theorem Eff.errs_prepend (es : List Err) (e : Eff) :
    Eff.append ⟨[], [], es⟩ e = ⟨e.locs, e.urls, es ++ e.errs⟩ := by
  simp [Eff.append]

/-- One cons step of the sequential traversal, in node-contribution form
(the fetch-error case is the node contribution with no children). -/
theorem seq_cons_step (env : Env) (fuel : Nat) (s : S) (location : String)
    (rest : List String) :
    parseAndFetchUrlsSequential env (Nat.succ fuel) s (location :: rest) =
      if (nodeEff env s.cfg location).2.length > 0 then
        match parseAndFetchUrlsSequential env fuel
            (applyEff s (nodeEff env s.cfg location).1)
            (nodeEff env s.cfg location).2 with
        | none => none
        | some s2 => parseAndFetchUrlsSequential env fuel s2 rest
      else
        parseAndFetchUrlsSequential env fuel
          (applyEff s (nodeEff env s.cfg location).1) rest := by
  simp only [parseAndFetchUrlsSequential, nodeEff]
  cases hf : env.fetch location with
  | error e =>
      dsimp only
      rw [if_neg (by simp)]
      congr 1
      simp [applyEff]
  | ok raw =>
      dsimp only
      rw [checkAndUnzip_eq_applyEff, parse_eq_applyEff]
      dsimp only
      rw [show (applyEff s (⟨[], [], (checkAndUnzipEff env raw).1⟩ : Eff)).cfg
            = s.cfg from rfl,
          applyEff_append, Eff.errs_prepend]

/-! Lemmas about the sampling loop of `GetRandomURLs`. -/

theorem urlList_set_perm_cons_eraseIdx (l : List URL) (i : Nat) (a : URL)
    (h : i < l.length) :
    List.Perm (l.set i a) (a :: l.eraseIdx i) := by
  rw [List.set_eq_take_cons_drop a h, List.eraseIdx_eq_take_drop_succ]
  exact List.perm_middle

theorem urlList_set_getElem_self (l : List URL) (i : Nat) (h : i < l.length) :
    l.set i l[i] = l := by
  apply List.ext_getElem
  · simp
  · intro j h1 h2
    rw [List.getElem_set]
    split
    · subst i; rfl
    · rfl

/-- Swap-with-last step, seen on the working prefix: the first `c + 1` live
slots are, up to permutation, the chosen element together with the first `c`
live slots left after the swap. -/
theorem take_succ_perm_swap (backing : List URL) (c index : Nat)
    (hc : c < backing.length) (hi : index ≤ c) :
    List.Perm (backing.take (c + 1))
      ((backing.getD index default) ::
        ((backing.set index (backing.getD c default)).take c)) := by
  have hilen : index < backing.length := Nat.lt_of_le_of_lt hi hc
  have hgc : backing.getD c default = backing[c] :=
    List.getD_eq_getElem backing default hc
  have hgi : backing.getD index default = backing[index] :=
    List.getD_eq_getElem backing default hilen
  have hBlen : (backing.take c).length = c :=
    List.length_take_of_le (Nat.le_of_lt hc)
  have hset : (backing.set index (backing.getD c default)).take c =
      (backing.take c).set index (backing.getD c default) := List.set_take
  have htake : backing.take (c + 1) = backing.take c ++ [backing[c]] := by
    rw [List.take_succ, List.getElem?_eq_getElem hc]
    rfl
  rw [hset, hgc, hgi, htake]
  rcases Nat.lt_or_ge index c with hlt | hge
  · have hiB : index < (backing.take c).length := by rw [hBlen]; exact hlt
    have h1 : List.Perm (backing.take c ++ [backing[c]])
        (backing[c] :: backing.take c) := List.perm_append_singleton _ _
    have h2 : List.Perm (backing.take c)
        ((backing.take c)[index] :: (backing.take c).eraseIdx index) := by
      have := urlList_set_perm_cons_eraseIdx (backing.take c) index
        (backing.take c)[index] hiB
      rw [urlList_set_getElem_self (backing.take c) index hiB] at this
      exact this
    have hBi : (backing.take c)[index] = backing[index] := List.getElem_take _
    have h3 : List.Perm ((backing.take c).set index backing[c])
        (backing[c] :: (backing.take c).eraseIdx index) :=
      urlList_set_perm_cons_eraseIdx _ index _ hiB
    refine h1.trans ?_
    refine (List.Perm.cons backing[c] h2).trans ?_
    rw [hBi]
    exact (List.Perm.swap backing[index] backing[c] _).trans
      (List.Perm.cons backing[index] h3.symm)
  · have hieq : index = c := Nat.le_antisymm hi hge
    subst hieq
    have hoor : (backing.take index).length ≤ index := by rw [hBlen]
    rw [List.set_eq_of_length_le hoor]
    exact List.perm_append_singleton _ _

/-- The sample grows by one chosen element per iteration; the returned
sample is `acc` extended by a subpermutation of the live working prefix. -/
theorem getRandomURLsLoop_subperm (rand : Nat → Nat) :
    ∀ (remaining i : Nat) (backing : List URL) (curLen : Nat) (acc : List URL),
      curLen ≤ backing.length →
      ∃ extra,
        (getRandomURLsLoop rand i remaining backing curLen acc).1 = acc ++ extra ∧
        List.Subperm extra (backing.take curLen) := by
  intro remaining
  induction remaining with
  | zero =>
      intro i backing curLen acc hle
      exact ⟨[], by simp [getRandomURLsLoop], List.nil_subperm⟩
  | succ remaining ih =>
      intro i backing curLen acc hle
      rcases Nat.eq_zero_or_pos curLen with h0 | hpos
      · subst h0
        exact ⟨[], by simp [getRandomURLsLoop], List.nil_subperm⟩
      · obtain ⟨c, rfl⟩ : ∃ c, curLen = c + 1 :=
          ⟨curLen - 1, (Nat.succ_pred_eq_of_pos hpos).symm⟩
        have hne : c + 1 ≠ 0 := Nat.succ_ne_zero c
        have hc : c < backing.length := Nat.lt_of_lt_of_le (Nat.lt_succ_self c) hle
        have hmod : rand i % (c + 1) ≤ c :=
          Nat.lt_succ_iff.mp (Nat.mod_lt _ (Nat.succ_pos c))
        have hstep : getRandomURLsLoop rand i (remaining + 1) backing (c + 1) acc =
            getRandomURLsLoop rand (i + 1) remaining
              (backing.set (rand i % (c + 1)) (backing.getD (c + 1 - 1) default))
              c (acc ++ [backing.getD (rand i % (c + 1)) default]) := by
          simp [getRandomURLsLoop]
        have hlen2 : c ≤ (backing.set (rand i % (c + 1))
            (backing.getD (c + 1 - 1) default)).length := by
          rw [List.length_set]
          exact Nat.le_of_lt hc
        obtain ⟨extra, hres, hsub⟩ := ih (i + 1)
          (backing.set (rand i % (c + 1)) (backing.getD (c + 1 - 1) default))
          c (acc ++ [backing.getD (rand i % (c + 1)) default]) hlen2
        refine ⟨backing.getD (rand i % (c + 1)) default :: extra, ?_, ?_⟩
        · rw [hstep, hres, List.append_assoc]
          rfl
        · have hkey := take_succ_perm_swap backing c (rand i % (c + 1)) hc hmod
          have h1 : List.Subperm
              (backing.getD (rand i % (c + 1)) default :: extra)
              (backing.getD (rand i % (c + 1)) default ::
                ((backing.set (rand i % (c + 1))
                  (backing.getD c default)).take c)) :=
            (List.subperm_cons _).mpr (by simpa using hsub)
          exact h1.trans hkey.symm.subperm

/-- Length law of the sampling loop. -/
theorem getRandomURLsLoop_length (rand : Nat → Nat) :
    ∀ (remaining i : Nat) (backing : List URL) (curLen : Nat) (acc : List URL),
      ((getRandomURLsLoop rand i remaining backing curLen acc).1).length =
        acc.length + min remaining curLen := by
  intro remaining
  induction remaining with
  | zero =>
      intro i backing curLen acc
      simp [getRandomURLsLoop]
  | succ remaining ih =>
      intro i backing curLen acc
      rcases Nat.eq_zero_or_pos curLen with h0 | hpos
      · subst h0
        simp [getRandomURLsLoop]
      · obtain ⟨c, rfl⟩ : ∃ c, curLen = c + 1 :=
          ⟨curLen - 1, (Nat.succ_pred_eq_of_pos hpos).symm⟩
        have hstep : getRandomURLsLoop rand i (remaining + 1) backing (c + 1) acc =
            getRandomURLsLoop rand (i + 1) remaining
              (backing.set (rand i % (c + 1)) (backing.getD (c + 1 - 1) default))
              c (acc ++ [backing.getD (rand i % (c + 1)) default]) := by
          simp [getRandomURLsLoop]
        rw [hstep, ih]
        simp only [List.length_append, List.length_cons, List.length_nil]
        omega

/-! Projections of `parseEff` per classification branch. -/

theorem parseEff_index (d : XmlDecoder) (cfg : Config) (url content : String)
    (sitemaps : List IndexEntry)
    (hsi : (parseSitemapIndex d content).1 = some sitemaps) :
    (parseEff d cfg url content).1.locs =
        url :: ((sitemaps.filter fun sm =>
          matchesAny cfg.followRegexes sm.loc).map IndexEntry.loc) ∧
    (parseEff d cfg url content).1.urls = [] ∧
    (parseEff d cfg url content).2 =
        (sitemaps.filter fun sm =>
          matchesAny cfg.followRegexes sm.loc).map IndexEntry.loc := by
  simp only [parseEff, hsi]
  split_ifs <;> simp

theorem parseEff_urlset (d : XmlDecoder) (cfg : Config) (url content : String)
    (hsi : (parseSitemapIndex d content).1 = none)
    (hpos : 0 < (parseURLSet d content).1.length) :
    (parseEff d cfg url content).1.locs = [] ∧
    (parseEff d cfg url content).1.urls =
        ((parseURLSet d content).1.filter fun u =>
          matchesAny cfg.rulesRegexes u.loc) ∧
    (parseEff d cfg url content).2 = ([] : List String) := by
  simp only [parseEff, hsi]
  rw [if_pos hpos]
  split_ifs <;> simp

theorem parseEff_locs_nil_of_none (d : XmlDecoder) (cfg : Config)
    (url content : String) (hsi : (parseSitemapIndex d content).1 = none) :
    (parseEff d cfg url content).1.locs = [] := by
  simp only [parseEff, hsi]
  split_ifs <;> simp [Eff.nil]

/-! Concrete fixtures used to instantiate hypotheses of the theorems. -/

/-- A decoder for which both decode attempts always fail. -/
def decoderW : XmlDecoder :=
  ⟨fun _ => (none, some (Err.decode "x")), fun _ => ([], some (Err.decode "y"))⟩

/-- A decoder recognising the content "I" as an index with two children and
the content "L" as a URL set with one URL. -/
def decoderIdx : XmlDecoder :=
  ⟨fun c =>
    if c = "I" then (some [⟨"child1", none⟩, ⟨"child2", none⟩], none)
    else (none, some (Err.decode "x")),
   fun c =>
    if c = "L" then ([⟨"u1", none, none, none⟩], none)
    else ([], some (Err.decode "y"))⟩

/-- An environment whose every fetch fails. -/
def envW : Env :=
  ⟨decoderW, fun _ => Except.error (Err.fetch "boom"),
    fun _ => Except.error (Err.gzip "nogz")⟩

/-- An environment whose every fetch yields the empty document. -/
def envEmptyContent : Env :=
  ⟨decoderW, fun _ => Except.ok "", fun _ => Except.error (Err.gzip "nogz")⟩

/-- An environment with two leaf documents: fetching "A" yields content
"LA" decoding to the single URL uA, fetching "B" yields "LB" decoding to
uB; index decoding always fails structurally. -/
def envLeaf2 : Env :=
  ⟨⟨fun _ => (none, some (Err.decode "x")),
    fun c =>
      if c = "LA" then ([⟨"uA", none, none, none⟩], none)
      else if c = "LB" then ([⟨"uB", none, none, none⟩], none)
      else ([], some (Err.decode "y"))⟩,
   fun loc =>
      if loc = "A" then Except.ok "LA"
      else if loc = "B" then Except.ok "LB"
      else Except.error (Err.fetch "404"),
   fun _ => Except.error (Err.gzip "nogz")⟩

/-- A fresh parser state with the default configuration. -/
def sW : S := {}

/-- C1: for every content string, the parse step classifies it as a sitemap
index exactly when index-parsing yields at least one child entry (under the
`encoding/xml` invariant that a materialised slice is non-empty), as a
URL set exactly when leaf-parsing yields at least one entry and
index-parsing yielded none; the two classifications are mutually exclusive,
and the index classification is exactly the condition under which `parse`
touches the discovered-locations collection. -/
theorem classification_policy (d : XmlDecoder) (hwf : d.WellFormed)
    (content : String) :
    (classifiesAsIndex d content = true ↔
      ∃ l, (parseSitemapIndex d content).1 = some l ∧ 0 < l.length) ∧
    (classifiesAsURLSet d content = true ↔
      ((parseSitemapIndex d content).1 = none ∧
        0 < (parseURLSet d content).1.length)) ∧
    ¬(classifiesAsIndex d content = true ∧
      classifiesAsURLSet d content = true) ∧
    (∀ (s : S) (url : String),
      (S.parse d s url content).1.sitemapLocations ≠ s.sitemapLocations ↔
        classifiesAsIndex d content = true) := by
  refine ⟨?_, ?_, ?_, ?_⟩
  · constructor
    · intro h
      unfold classifiesAsIndex at h
      cases hsi : (parseSitemapIndex d content).1 with
      | none => rw [hsi] at h; simp at h
      | some l =>
          refine ⟨l, rfl, ?_⟩
          by_cases hlen : content.length = 0
          · rw [parseSitemapIndex, if_pos hlen] at hsi
            simp at hsi
          · rw [parseSitemapIndex, if_neg hlen] at hsi
            have hx : d.decodeIndex content =
                ((d.decodeIndex content).1, (d.decodeIndex content).2) := rfl
            rw [hsi] at hx
            exact List.length_pos.mpr (hwf content l _ hx)
    · rintro ⟨l, hl, hpos⟩
      unfold classifiesAsIndex
      rw [hl]
      rfl
  · unfold classifiesAsURLSet
    rw [Bool.and_eq_true]
    constructor
    · rintro ⟨h1, h2⟩
      refine ⟨Option.isNone_iff_eq_none.mp h1, ?_⟩
      rw [Bool.not_eq_true', ← Bool.not_eq_true] at h2
      have : ¬((parseURLSet d content).1 = []) := fun hz => h2 (by simp [hz])
      exact List.length_pos.mpr this
    · rintro ⟨h1, h2⟩
      refine ⟨by simp [h1], ?_⟩
      have : (parseURLSet d content).1 ≠ [] := List.length_pos.mp h2
      simp [List.isEmpty_iff, this]
  · rintro ⟨h1, h2⟩
    unfold classifiesAsIndex at h1
    unfold classifiesAsURLSet at h2
    rw [Bool.and_eq_true] at h2
    rw [Option.isNone_iff_eq_none.mp h2.1] at h1
    simp at h1
  · intro s url
    cases hsi : (parseSitemapIndex d content).1 with
    | none =>
        have hnil := parseEff_locs_nil_of_none d s.cfg url content hsi
        rw [parse_eq_applyEff]
        unfold classifiesAsIndex
        simp [applyEff, hnil, hsi]
    | some l =>
        obtain ⟨hlocs, _, _⟩ := parseEff_index d s.cfg url content l hsi
        rw [parse_eq_applyEff]
        unfold classifiesAsIndex
        rw [hsi]
        simp only [Option.isSome_some, iff_true]
        intro heq
        have hlen := congrArg List.length heq
        simp [applyEff, hlocs, List.length_append] at hlen

/-- C1 witness: the policy instantiated at a concrete well-formed decoder
and a concrete content string. -/
theorem classification_policy_witness :
    ¬(classifiesAsIndex decoderIdx "I" = true ∧
      classifiesAsURLSet decoderIdx "I" = true) :=
  (classification_policy decoderIdx
    (by
      intro c l e h
      by_cases hc : c = "I"
      · rw [hc] at h
        simp [decoderIdx] at h
        rw [← h.1]
        simp
      · simp [decoderIdx, hc] at h) "I").2.2.1

/-- C3: one parse step on a document whose index decode yields children
grows discovered-locations by exactly the index locator plus the
filter-admitted children, and returns exactly the admitted child locators
(the same `parse` step is the one invoked by both the concurrent and the
sequential driver). -/
theorem index_step_growth (d : XmlDecoder) (s : S) (url content : String)
    (sitemaps : List IndexEntry)
    (hsi : (parseSitemapIndex d content).1 = some sitemaps) :
    (S.parse d s url content).1.sitemapLocations =
        s.sitemapLocations ++ url :: ((sitemaps.filter fun sm =>
          matchesAny s.cfg.followRegexes sm.loc).map IndexEntry.loc) ∧
    (S.parse d s url content).1.sitemapLocations.length =
        s.sitemapLocations.length + 1 + ((sitemaps.filter fun sm =>
          matchesAny s.cfg.followRegexes sm.loc).map IndexEntry.loc).length ∧
    (S.parse d s url content).2 = (sitemaps.filter fun sm =>
          matchesAny s.cfg.followRegexes sm.loc).map IndexEntry.loc := by
  obtain ⟨hlocs, hurls, hchildren⟩ := parseEff_index d s.cfg url content sitemaps hsi
  rw [parse_eq_applyEff]
  refine ⟨?_, ?_, hchildren⟩
  · simp [applyEff, hlocs]
  · simp [applyEff, hlocs, List.length_append]
    omega

/-- C3 witness: a concrete index document with two admitted children. -/
theorem index_step_growth_witness :
    (S.parse decoderIdx sW "u" "I").2 =
      (([⟨"child1", none⟩, ⟨"child2", none⟩] : List IndexEntry).filter fun sm =>
        matchesAny sW.cfg.followRegexes sm.loc).map IndexEntry.loc :=
  (index_step_growth decoderIdx sW "u" "I"
    [⟨"child1", none⟩, ⟨"child2", none⟩] (by decide)).2.2

/-- C4: one parse step on a document classified as a leaf URL set appends
exactly the rule-filter-admitted entries to the admitted-URL collection
(at most as many as decoded), leaves discovered-locations untouched, and
returns no children. -/
theorem urlset_step_growth (d : XmlDecoder) (s : S) (url content : String)
    (hsi : (parseSitemapIndex d content).1 = none)
    (hpos : 0 < (parseURLSet d content).1.length) :
    (S.parse d s url content).1.urls =
        s.urls ++ ((parseURLSet d content).1.filter fun u =>
          matchesAny s.cfg.rulesRegexes u.loc) ∧
    (S.parse d s url content).1.urls.length =
        s.urls.length + ((parseURLSet d content).1.filter fun u =>
          matchesAny s.cfg.rulesRegexes u.loc).length ∧
    ((parseURLSet d content).1.filter fun u =>
          matchesAny s.cfg.rulesRegexes u.loc).length ≤
        (parseURLSet d content).1.length ∧
    (S.parse d s url content).1.sitemapLocations = s.sitemapLocations ∧
    (S.parse d s url content).2 = [] := by
  obtain ⟨hlocs, hurls, hchildren⟩ := parseEff_urlset d s.cfg url content hsi hpos
  rw [parse_eq_applyEff]
  refine ⟨?_, ?_, List.length_filter_le _ _, ?_, hchildren⟩
  · simp [applyEff, hurls]
  · simp [applyEff, hurls, List.length_append]
  · simp [applyEff, hlocs]

/-- C4 witness: a concrete leaf document with one admitted URL. -/
theorem urlset_step_growth_witness :
    (S.parse decoderIdx sW "u" "L").1.urls =
      sW.urls ++ (([⟨"u1", none, none, none⟩] : List URL).filter fun u =>
        matchesAny sW.cfg.rulesRegexes u.loc) := by
  have h := (urlset_step_growth decoderIdx sW "u" "L" (by decide) (by decide)).1
  have heq : (parseURLSet decoderIdx "L").1 =
      [⟨"u1", none, none, none⟩] := by decide
  rw [heq] at h
  exact h

/-- C2 (code bug): `parseAndFetchUrlsMultiThread` (source lines 427-448)
spawns one goroutine per location and takes no lock, so the shared-slice
appends of sibling goroutines race.  With two admitted leaf children A and
B carrying the URLs uA and uB, the sequential strategy records both URLs;
but under the interleaving in which both goroutines read the shared `urls`
header before either writes back (schedule read-A, read-B, write-A,
write-B of the accesses of line 523), the later write overwrites the
earlier and uA is lost from the aggregate.  A fully serialised schedule of
the same racy semantics does reproduce the sequential result, confirming
that the mutual exclusion spec section 5 prescribes — and the code omits —
is exactly what the claimed equal-set convergence needs. -/
theorem multiThread_lost_update :
    (parseAndFetchUrlsSequential envLeaf2 3 sW ["A", "B"]).map (fun st => st.urls) =
      some [⟨"uA", none, none, none⟩, ⟨"uB", none, none, none⟩] ∧
    racyAppendRun [0, 0, 0, 0] []
        [(⟨"uA", none, none, none⟩, none), (⟨"uB", none, none, none⟩, none)] =
      some [⟨"uA", none, none, none⟩, ⟨"uB", none, none, none⟩] ∧
    racyAppendRun [0, 1, 0, 0] []
        [(⟨"uA", none, none, none⟩, none), (⟨"uB", none, none, none⟩, none)] =
      some [⟨"uB", none, none, none⟩] ∧
    (⟨"uA", none, none, none⟩ : URL) ∉ [(⟨"uB", none, none, none⟩ : URL)] := by
  refine ⟨by decide, by decide, by decide, by decide⟩

/-- C5 (code bug): `originalURLs := s.urls` at source line 313 copies only
the slice header, so the swap-with-last write at line 326 goes through the
shared backing array of the stored collection.  With stored URLs [A, B],
n = 1 and the random draw picking index 0, the stored slice afterwards
reads [B, B] instead of the untouched [A, B] promised by the function
documentation. -/
theorem getRandomURLs_mutates_stored :
    urlsAfterGetRandomURLs (fun _ => 0)
        { sW with urls := [⟨"A", none, none, none⟩, ⟨"B", none, none, none⟩] } 1 =
      [⟨"B", none, none, none⟩, ⟨"B", none, none, none⟩] ∧
    urlsAfterGetRandomURLs (fun _ => 0)
        { sW with urls := [⟨"A", none, none, none⟩, ⟨"B", none, none, none⟩] } 1 ≠
      [⟨"A", none, none, none⟩, ⟨"B", none, none, none⟩] := by
  decide

/-- C6 counterexample: one parse step on the empty document records two
EmptyContent-derived errors (one per schema attempt), not one. -/
theorem empty_content_one_error_counterexample :
    (S.parse decoderW sW "u" "").1.errs =
      [Err.sitemapIndexEmpty, Err.sitemapEmpty] ∧
    (S.parse decoderW sW "u" "").1.errs.length ≠ 1 := by
  decide

/-- C6 amended: a node whose fetched content is empty contributes exactly
the two EmptyContent-derived errors ("sitemapindex is empty" and "sitemap
is empty"), no locations, no URLs and no children, and the traversal
continues with the remaining sibling locations unaffected. -/
theorem empty_content_two_errors (env : Env) (fuel : Nat) (s : S)
    (location : String) (rest : List String)
    (hf : env.fetch location = Except.ok "") :
    nodeEff env s.cfg location =
      (⟨[], [], [Err.sitemapIndexEmpty, Err.sitemapEmpty]⟩, []) ∧
    parseAndFetchUrlsSequential env (fuel + 1) s (location :: rest) =
      parseAndFetchUrlsSequential env fuel
        { s with errs := s.errs ++ [Err.sitemapIndexEmpty, Err.sitemapEmpty] }
        rest := by
  have hne : nodeEff env s.cfg location =
      (⟨[], [], [Err.sitemapIndexEmpty, Err.sitemapEmpty]⟩, []) := by
    simp only [nodeEff]
    rw [hf]
    dsimp only
    rw [show checkAndUnzipEff env "" = ([], "") from by
      rw [checkAndUnzipEff, if_neg (by decide)]]
    rfl
  refine ⟨hne, ?_⟩
  rw [seq_cons_step, hne]
  rw [if_neg (by decide)]
  have happ : applyEff s ⟨[], [], [Err.sitemapIndexEmpty, Err.sitemapEmpty]⟩ =
      { s with errs := s.errs ++ [Err.sitemapIndexEmpty, Err.sitemapEmpty] } := by
    simp [applyEff]
  rw [happ]

/-- C6 amended witness: a concrete environment fetching the empty document. -/
theorem empty_content_two_errors_witness :
    nodeEff envEmptyContent sW.cfg "u" =
      (⟨[], [], [Err.sitemapIndexEmpty, Err.sitemapEmpty]⟩, []) :=
  (empty_content_two_errors envEmptyContent 1 sW "u" [] rfl).1

/-- C7: when the entry content must be fetched and that fetch fails, `Parse`
returns immediately with that single error; exactly one error is recorded
and the discovered-location and admitted-URL collections stay empty. -/
theorem initial_fetch_failure_aborts (env : Env) (scheds : Nat → List Nat)
    (fuel : Nat) (s : S) (url : String) (e : Err)
    (herr : s.errs = []) (hurls : s.urls = []) (hlocs : s.sitemapLocations = [])
    (hf : env.fetch url = Except.error e) :
    ∃ s2, S.Parse env scheds fuel s url none = some (s2, some e) ∧
      s2.errs = [e] ∧ s2.urls = [] ∧ s2.sitemapLocations = [] := by
  refine ⟨{ s with mainURL := url, errs := s.errs ++ [e] }, ?_,
    by simp [herr], by simpa using hurls, by simpa using hlocs⟩
  simp only [S.Parse]
  rw [if_neg (by simp [herr])]
  rw [show setContent env { s with mainURL := url } none = env.fetch url
      from rfl, hf]

/-- C7 witness: a concrete environment whose entry fetch fails. -/
theorem initial_fetch_failure_aborts_witness :
    ∃ s2, S.Parse envW (fun _ => []) 1 sW "http://x/sitemap.xml" none =
        some (s2, some (Err.fetch "boom")) ∧
      s2.errs = [Err.fetch "boom"] ∧ s2.urls = [] ∧ s2.sitemapLocations = [] :=
  initial_fetch_failure_aborts envW (fun _ => []) 1 sW "http://x/sitemap.xml"
    (Err.fetch "boom") rfl rfl rfl rfl

theorem foldl_mem_errs (step : S → String → S)
    (hmono : ∀ st p x, x ∈ st.errs → x ∈ (step st p).errs) :
    ∀ (pats : List String) (st : S) (x : Err), x ∈ st.errs →
      x ∈ (pats.foldl step st).errs := by
  intro pats
  induction pats with
  | nil => intro st x h; exact h
  | cons p rest ih => intro st x h; exact ih _ _ (hmono st p x h)

theorem foldl_compile_err_mem (step : S → String → S)
    (compile : String → Except Err Matcher)
    (hmono : ∀ st p x, x ∈ st.errs → x ∈ (step st p).errs)
    (hadd : ∀ st p e, compile p = Except.error e → e ∈ (step st p).errs) :
    ∀ (pats : List String) (st : S) (pat : String) (e : Err),
      pat ∈ pats → compile pat = Except.error e →
      e ∈ (pats.foldl step st).errs := by
  intro pats
  induction pats with
  | nil => intro st pat e hmem; cases hmem
  | cons p rest ih =>
      intro st pat e hmem hfail
      rcases List.mem_cons.1 hmem with rfl | h
      · exact foldl_mem_errs step hmono rest _ e (hadd st pat e hfail)
      · exact ih _ _ _ h hfail

theorem setFollow_err_mem (compile : String → Except Err Matcher) (s : S)
    (pats : List String) (pat : String) (e : Err) (hmem : pat ∈ pats)
    (hfail : compile pat = Except.error e) :
    e ∈ (SetFollow compile s pats).errs := by
  unfold SetFollow
  refine foldl_compile_err_mem _ compile ?_ ?_ pats _ pat e hmem hfail
  · intro st p x h
    cases hc : compile p <;> simp [hc] <;> first | exact Or.inl h | exact h
  · intro st p er h
    rw [h]
    simp

theorem setRules_err_mem (compile : String → Except Err Matcher) (s : S)
    (pats : List String) (pat : String) (e : Err) (hmem : pat ∈ pats)
    (hfail : compile pat = Except.error e) :
    e ∈ (SetRules compile s pats).errs := by
  unfold SetRules
  refine foldl_compile_err_mem _ compile ?_ ?_ pats _ pat e hmem hfail
  · intro st p x h
    cases hc : compile p <;> simp [hc] <;> first | exact Or.inl h | exact h
  · intro st p er h
    rw [h]
    simp

theorem parse_guard_blocks (env : Env) (scheds : Nat → List Nat) (fuel : Nat)
    (s : S) (url : String) (urlContent : Option String)
    (h : 0 < s.errs.length) :
    S.Parse env scheds fuel s url urlContent =
      some (s, some Err.errorsBeforeParsing) := by
  simp only [S.Parse]
  rw [if_pos h]

/-- C8: a pattern that failed to compile during `SetFollow` or `SetRules`
configuration leaves an error recorded, and every subsequent `Parse` call
on that instance returns immediately with the distinguished guard error and
the state unchanged — for every environment, schedule and fuel, so no fetch,
classification or aggregate mutation can occur. -/
theorem filter_config_error_blocks_parse
    (compile : String → Except Err Matcher) (s : S) (pats : List String)
    (pat : String) (e : Err) (hmem : pat ∈ pats)
    (hfail : compile pat = Except.error e) :
    (∀ env scheds fuel url urlContent,
      S.Parse env scheds fuel (SetFollow compile s pats) url urlContent =
        some (SetFollow compile s pats, some Err.errorsBeforeParsing)) ∧
    (∀ env scheds fuel url urlContent,
      S.Parse env scheds fuel (SetRules compile s pats) url urlContent =
        some (SetRules compile s pats, some Err.errorsBeforeParsing)) := by
  constructor
  · intro env scheds fuel url urlContent
    exact parse_guard_blocks env scheds fuel _ url urlContent
      (List.length_pos.mpr (List.ne_nil_of_mem
        (setFollow_err_mem compile s pats pat e hmem hfail)))
  · intro env scheds fuel url urlContent
    exact parse_guard_blocks env scheds fuel _ url urlContent
      (List.length_pos.mpr (List.ne_nil_of_mem
        (setRules_err_mem compile s pats pat e hmem hfail)))

/-- A regexp-compile oracle failing on the pattern "[". -/
def compileW : String → Except Err Matcher := fun p =>
  if p = "[" then Except.error (Err.regexCompile "missing closing ]")
  else Except.ok fun _ => true

/-- C8 witness: a concrete instance configured with the malformed pattern
"[" and a concrete later Parse call. -/
theorem filter_config_error_blocks_parse_witness :
    S.Parse envW (fun _ => []) 1 (SetFollow compileW sW ["["]) "u" none =
      some (SetFollow compileW sW ["["], some Err.errorsBeforeParsing) :=
  (filter_config_error_blocks_parse compileW sW ["["] "["
    (Err.regexCompile "missing closing ]") (List.mem_singleton.mpr rfl)
    rfl).1 envW (fun _ => []) 1 "u" none

/-- C9: `GetRandomURLs` returns exactly min(n, P) elements drawn without
replacement from the stored collection (a subpermutation — no stored
position is drawn twice), and asking for more than available returns all
available elements with no error. -/
theorem getRandomURLs_sample_law (rand : Nat → Nat) (st : S) (n : Nat) :
    (GetRandomURLs rand (some st) n).length = min n st.urls.length ∧
    List.Subperm (GetRandomURLs rand (some st) n) st.urls ∧
    (st.urls.length ≤ n →
      List.Perm (GetRandomURLs rand (some st) n) st.urls) := by
  have hlen := getRandomURLsLoop_length rand n 0 st.urls st.urls.length []
  obtain ⟨extra, hres, hsub⟩ := getRandomURLsLoop_subperm rand n 0 st.urls
    st.urls.length [] (Nat.le_refl _)
  have hGR : GetRandomURLs rand (some st) n =
      (getRandomURLsLoop rand 0 n st.urls st.urls.length []).1 := rfl
  have hsub2 : List.Subperm (GetRandomURLs rand (some st) n) st.urls := by
    rw [hGR, hres]
    simpa [List.take_length] using hsub
  refine ⟨by rw [hGR, hlen]; simp, hsub2, ?_⟩
  intro hge
  have h1 : st.urls.length ≤ (GetRandomURLs rand (some st) n).length := by
    rw [hGR, hlen]
    simp
    omega
  exact hsub2.perm_of_length_le h1

/-- C10: every nil-receiver read accessor returns its zero value instead of
panicking: 0 errors, the nil error slice, 0 URLs, the empty sample. -/
theorem nil_receiver_zero_values :
    GetErrorsCount none = 0 ∧ GetErrors none = none ∧ GetURLCount none = 0 ∧
    ∀ (rand : Nat → Nat) (n : Nat), GetRandomURLs rand none n = [] :=
  ⟨rfl, rfl, rfl, fun _ _ => rfl⟩

/-- C9 witness: sampling 5 from a stored population of 2 returns all 2, up
to order. -/
theorem getRandomURLs_sample_law_witness :
    List.Perm
      (GetRandomURLs (fun _ => 0)
        (some { sW with
          urls := [⟨"A", none, none, none⟩, ⟨"B", none, none, none⟩] }) 5)
      ({ sW with
          urls := [⟨"A", none, none, none⟩, ⟨"B", none, none, none⟩] } : S).urls :=
  (getRandomURLs_sample_law (fun _ => 0)
    { sW with urls := [⟨"A", none, none, none⟩, ⟨"B", none, none, none⟩] }
    5).2.2 (by decide)

end GoSitemap
